import Mathlib

/-!
Verification development for the graphql-modules core.

The development shallowly embeds the two source files of the repository:
the resolver-composition utilities (`resolveRelevantMappings`, `asArray`,
`chainFunctions`, `composeResolvers`) and the `GraphQLModule` class with its
computed getters (`providers`, `typeDefs`, `resolvers`, `imports`,
`contextBuilder`, `context`).

Modelling conventions, used throughout:
- JS objects with string keys are association lists; updating an existing key
  rewrites it in place and a new key is appended, mirroring JS property
  insertion order (`Object.keys` order).
- A resolver slot holds `Option R`: `none` models the JS value `undefined`
  (both a missing property and an explicitly stored `undefined` read back as
  `undefined` in JS).
- A thrown JS `TypeError` is modelled by `Except.error ()`.
-/

deriving instance DecidableEq for Except

/-- Accumulator recursion behind `jsSplitDot`. -/
def splitDotAux : List Char → List Char → List String
  | [], cur => [String.mk cur.reverse]
  | c :: rest, cur =>
    if c = '.' then String.mk cur.reverse :: splitDotAux rest []
    else splitDotAux rest (c :: cur)

/-- Embeds the JS `path.split('.')`: cuts the string at every dot, keeping
empty segments, e.g. `"Type.field"` gives `["Type", "field"]` and `"Query"`
gives `["Query"]`. -/
def jsSplitDot (s : String) : List String := splitDotAux s.toList []

/-- JS object property write: an existing key is updated in place, a new key is
appended, mirroring JS property insertion order. -/
def setKey {α : Type} (m : List (String × α)) (k : String) (v : α) :
    List (String × α) :=
  if (m.lookup k).isSome then
    m.map (fun p => if p.1 = k then (k, v) else p)
  else
    m ++ [(k, v)]

/-- Field resolvers of one type: a JS object from field name to resolver slot
(`none` is `undefined`). -/
abbrev FieldResolvers (R : Type) := List (String × Option R)

/-- IResolvers: a JS object from type name to its field resolvers object. -/
abbrev ResolversMap (R : Type) := List (String × FieldResolvers R)

/-- A composer (middleware) function. JS functions are untyped, so a composer
receives and returns a resolver slot value (`Option R`, `none` = `undefined`). -/
abbrev ComposerFn (R : Type) := Option R → Option R

/-- A value of the composition mapping: the source types it `any | any[]`. -/
inductive ComposeFns (R : Type) where
  | one (f : ComposerFn R)
  | many (fs : List (ComposerFn R))

/-- IResolversComposerMapping: a JS object from resolver path to composer
function(s). -/
abbrev IResolversComposerMapping (R : Type) := List (String × ComposeFns R)

/-- Embeds `asArray = fns => Array.isArray(fns) ? fns : [fns]`. -/
def asArray {R : Type} : ComposeFns R → List (ComposerFn R)
  | .one f => [f]
  | .many fs => fs

/-- Embeds lodash `get(resolvers, "Type.field")`: `undefined` (`none`) when the
type or the field is absent. -/
def lodashGet {R : Type} (rs : ResolversMap R) (t fld : String) : Option R :=
  match rs.lookup t with
  | none => none
  | some tm =>
    match tm.lookup fld with
    | none => none
    | some v => v

/-- Embeds lodash `set(resolvers, "Type.field", v)`: creates the intermediate
type object when it is absent. -/
def lodashSet {R : Type} (rs : ResolversMap R) (t fld : String) (v : Option R) :
    ResolversMap R :=
  match rs.lookup t with
  | none => rs ++ [(t, [(fld, v)])]
  | some tm => setKey rs t (setKey tm fld v)

/-- Embeds `resolveRelevantMappings(resolvers, path, allMappings)`.
`path.split('.')` is `jsSplitDot`; the source tests
`splitted.length === 2` and reads `splitted[0]`, `splitted[1]`, modelled by the
two-element list pattern.
For a wildcard field, `Object.keys(resolvers[typeName])` throws a `TypeError`
when `resolvers[typeName]` is `undefined`, modelled by `Except.error ()`; the
`filter` models the truthiness test `!allMappings[mapItem]` (every stored
mapping value, function or array, is truthy). -/
def resolveRelevantMappings {R : Type} (resolvers : ResolversMap R)
    (path : String) (allMappings : IResolversComposerMapping R) :
    Except Unit (List String) :=
  match jsSplitDot path with
  | [typeName, fieldName] =>
    if fieldName = "*" then
      match resolvers.lookup typeName with
      | none => .error ()
      | some tm =>
        .ok (((tm.map Prod.fst).map (fun field => typeName ++ "." ++ field)).filter
          (fun mapItem => (allMappings.lookup mapItem).isNone))
    else
      .ok [path]
  | _ => .ok []

/-- Embeds `chainFunctions(funcs)`: a length-one list returns its element;
otherwise `funcs.reduce((a, b) => (...args) => a(b(...args)))`, i.e. a left
fold of composition over the tail starting from the head (JS `reduce` with no
initial value). The empty case never arises from `composeResolvers`, which
always appends the resolver-reading thunk. -/
def chainFunctions {R : Type} (funcs : List (ComposerFn R)) : ComposerFn R :=
  match funcs with
  | [] => id
  | f :: rest => rest.foldl (fun a b => fun args => a (b args)) f

/-- Embeds the `relevantFields.forEach` loop of `composeResolvers`: for each
path, build `chainFunctions([...composeFns, () => get(resolvers, path)])` and
`set(resolvers, path, fns())`. The trailing thunk reads the current (already
mutated) resolvers object, modelled by threading the map through a fold;
calling `fns()` with no arguments passes `undefined` (`none`) through the
chain. The paths reaching this loop always have the two-segment `Type.field`
shape produced by `resolveRelevantMappings` (dot-free names). -/
def applyToFields {R : Type} (rs : ResolversMap R)
    (composeFns : List (ComposerFn R)) (fields : List String) : ResolversMap R :=
  fields.foldl (fun acc path =>
    match jsSplitDot path with
    | [t, fld] =>
      let fns := chainFunctions
        (composeFns ++ [(fun _ => lodashGet acc t fld : ComposerFn R)])
      lodashSet acc t fld (fns none)
    | _ => acc) rs

/-- Iteration of `composeResolvers` over `Object.keys(mapping)`, threading the
mutated resolvers object; a thrown `TypeError` aborts the whole call. The
lookup of `mapping[resolverPath]` always succeeds for a key produced by
`Object.keys`, so the default is never used. -/
def composeResolversGo {R : Type} (allMappings : IResolversComposerMapping R) :
    ResolversMap R → List String → Except Unit (ResolversMap R)
  | rs, [] => .ok rs
  | rs, path :: rest => do
    let composeFns := (allMappings.lookup path).getD (ComposeFns.many [])
    let relevantFields ← resolveRelevantMappings rs path allMappings
    composeResolversGo allMappings
      (applyToFields rs (asArray composeFns) relevantFields) rest

/-- Embeds `composeResolvers(resolvers, mapping)`: maps over
`Object.keys(mapping)` in insertion order, wrapping the relevant fields of the
(mutated) resolvers object. -/
def composeResolvers {R : Type} (resolvers : ResolversMap R)
    (mapping : IResolversComposerMapping R) : Except Unit (ResolversMap R) :=
  composeResolversGo mapping resolvers (mapping.map Prod.fst)

/-- Embeds the `T | ((config: Config) => T)` pattern used by the `typeDefs`,
`resolvers`, `providers` and `resolversComposition` options. -/
inductive OptDef (Cfg α : Type) where
  | lit (a : α)
  | fn (f : Cfg → α)

/-- Resolves an option form against the module configuration, as each getter
does with its typeof-function test on the option value. -/
def OptDef.resolve {Cfg α : Type} (cfg : Cfg) : OptDef Cfg α → α
  | .lit a => a
  | .fn f => f cfg

/-- Embeds a parsed `DocumentNode`, carrying the SDL text that `print`
recovers from it. -/
structure DocumentNode where
  sdl : String
deriving DecidableEq

/-- Embeds `print(documentNode)` from graphql. -/
def printDocument (d : DocumentNode) : String := d.sdl

/-- The accepted shapes of a `typeDefs` value: string, array of strings,
document, or array of documents (the function form wraps one of these). -/
inductive TypeDefsForm where
  | str (s : String)
  | strs (l : List String)
  | doc (d : DocumentNode)
  | docs (l : List DocumentNode)
deriving DecidableEq

/-- An argument slot of `mergeGraphQLSchemas` as the `typeDefs` getter feeds
it: an already-merged SDL string, a raw typeDefs form (the function form is
fed to the merge unconverted), or the empty-array initial value of the getter
(used when the option is unset). -/
inductive SDLFragment where
  | strI (s : String)
  | rawI (f : TypeDefsForm)
  | emptyArr
deriving DecidableEq

/-- SDL texts contained in one typeDefs form, in order. -/
def TypeDefsForm.texts : TypeDefsForm → List String
  | .str s => [s]
  | .strs l => l
  | .doc d => [printDocument d]
  | .docs l => l.map printDocument

/-- SDL texts contained in one merge argument, in order. -/
def SDLFragment.texts : SDLFragment → List String
  | .strI s => [s]
  | .rawI f => f.texts
  | .emptyArr => []

/-- Concatenation of SDL texts in order. -/
def joinSDL : List String → String
  | [] => ""
  | s :: rest => s ++ joinSDL rest

/-- Modelled from the spec: `mergeGraphQLSchemas` is the epoxy schema-merge
collaborator, which is not under src. Per section 6 it accepts an ordered list
of SDL fragments and returns one merged SDL string; it is modelled as the
order-preserving concatenation of the fragment texts. -/
def mergeGraphQLSchemas (l : List SDLFragment) : String :=
  joinSDL (l.map SDLFragment.texts).flatten

/-- Merges one resolver map into an accumulated map, the incoming fields
overriding on the same type and field key. -/
def mergeResolversInto {R : Type} (acc m : ResolversMap R) : ResolversMap R :=
  m.foldl (fun acc2 tp =>
    match acc2.lookup tp.1 with
    | none => acc2 ++ [tp]
    | some fm =>
      setKey acc2 tp.1 (tp.2.foldl (fun fm2 fv => setKey fm2 fv.1 fv.2) fm)) acc

/-- Modelled from the spec: `mergeResolvers` is the epoxy resolver-merge
collaborator, which is not under src. Per section 6 it accepts an ordered list
of resolver maps and returns one merged map with later-map fields overriding
earlier ones on the same type+field key. -/
def mergeResolvers {R : Type} (l : List (ResolversMap R)) : ResolversMap R :=
  l.foldl mergeResolversInto []

/-- A value stored in a context field: a data value (opaque, taken to be `Nat`)
or the injector reference seeded by `context`. -/
inductive CtxVal where
  | num (n : Nat)
  | injectorRef
deriving DecidableEq

/-- Fields of a context object, a JS object in insertion order. -/
abbrev CtxFields := List (String × CtxVal)

/-- Embeds the JS value flowing through the context-builder fold: either a
plain context object or a `GraphQLModule` instance — the accumulator of the
reduce in the `contextBuilder` getter starts as `imports[0]`, a module object.
Fields later assigned onto a module object are kept in `extra`; the class
properties of the module instance are not themselves modelled as context
fields. -/
inductive JsCtxObj where
  | plainCtx (fields : CtxFields)
  | moduleObj (name : String) (extra : CtxFields)
deriving DecidableEq

/-- Enumerable own fields of the object, as `Object.assign` reads them. -/
def JsCtxObj.fields : JsCtxObj → CtxFields
  | .plainCtx fs => fs
  | .moduleObj _ e => e

/-- Embeds `Object.assign(dst, src)` on field objects: each source key in order
overwrites an existing key in place or is appended. -/
def assignFields (dst src : CtxFields) : CtxFields :=
  src.foldl (fun d kv => setKey d kv.1 kv.2) dst

/-- Embeds `Object.assign(dst, src)` where `dst` is either object kind;
assigning preserves the identity of the target object. -/
def JsCtxObj.assign : JsCtxObj → CtxFields → JsCtxObj
  | .plainCtx fs, src => .plainCtx (assignFields fs src)
  | .moduleObj n e, src => .moduleObj n (assignFields e src)

/-- Embeds `BuildContextFn<Request, Context>`: requests are opaque (`Nat`), the
injector argument is opaque (`Unit`), and a builder returns the context fields
it contributes. The promise layer is elided: the source never awaits these
results. -/
abbrev BuildContextFn := Nat → JsCtxObj → Unit → CtxFields

/-- Embeds the `GraphQLModule` class together with its
`GraphQLModuleOptions`: the constructor stores the options object and
`_moduleConfig`. Fields in order: `name`, `typeDefs`, `resolvers`,
`contextBuilder`, `imports`, `providers`, `resolversComposition`, then the
config. Unset options are `none`; the `T | (config => T)` forms are `OptDef`.
The function form of the `imports` option is evaluated at the fixed
`_moduleConfig` on every getter run, so for the finite instances representable
here it is modelled pre-applied as a plain list; the cyclic instance graphs
that the JS heap additionally permits are modelled by the name-indexed module
graph further below. -/
inductive GraphQLModule (Cfg P R : Type) : Type where
  | mk (name : String)
      (typeDefsOpt : Option (OptDef Cfg TypeDefsForm))
      (resolversOpt : Option (OptDef Cfg (ResolversMap R)))
      (contextBuilderOpt : Option BuildContextFn)
      (importsOpt : Option (List (GraphQLModule Cfg P R)))
      (providersOpt : Option (OptDef Cfg (List P)))
      (resolversCompositionOpt : Option (OptDef Cfg (IResolversComposerMapping R)))
      (moduleConfig : Cfg)

/-- Reads `_options.name`. -/
def GraphQLModule.nameOf {Cfg P R : Type} : GraphQLModule Cfg P R → String
  | .mk n _ _ _ _ _ _ _ => n

/-- Reads `_options.providers`. -/
def GraphQLModule.providersOptOf {Cfg P R : Type} :
    GraphQLModule Cfg P R → Option (OptDef Cfg (List P))
  | .mk _ _ _ _ _ p _ _ => p

/-- Reads `_moduleConfig`. -/
def GraphQLModule.configOf {Cfg P R : Type} : GraphQLModule Cfg P R → Cfg
  | .mk _ _ _ _ _ _ _ c => c

/-- Embeds the `imports` getter: the resolved imports list, `[]` when the
option is unset. -/
def GraphQLModule.imports {Cfg P R : Type} :
    GraphQLModule Cfg P R → List (GraphQLModule Cfg P R)
  | .mk _ _ _ _ none _ _ _ => []
  | .mk _ _ _ _ (some l) _ _ _ => l

/-- Embeds `ModuleConfig(module)`: `Symbol.for` returns the same symbol of the
global registry for the same key string, so the symbol is modelled by its key
string. -/
def ModuleConfig (name : String) : String := "ModuleConfig." ++ name

/-- A provider as assembled by the `providers` getter: either the
auto-registered `{ provide: ModuleConfig(this), useValue: this._moduleConfig }`
entry, or a module-declared provider (opaque payload `P`). -/
inductive ProviderSpec (Cfg P : Type) where
  | moduleConfigValue (token : String) (value : Cfg)
  | user (p : P)
deriving DecidableEq

/-- Own part of the `providers` getter: the `ModuleConfig` useValue provider
first, then the declared providers, with the function form applied to the
config. -/
def ownProviders {Cfg P : Type} (n : String) (provOpt : Option (OptDef Cfg (List P)))
    (cfg : Cfg) : List (ProviderSpec Cfg P) :=
  ProviderSpec.moduleConfigValue (ModuleConfig n) cfg ::
    (match provOpt with
     | none => []
     | some d => (d.resolve cfg).map ProviderSpec.user)

mutual
/-- Embeds the `providers` getter: returns
`[...this.imports.reduce((acc, module) => [...module.providers, ...acc], []), ...providers]`
where `providers` is the own part (`ModuleConfig` entry plus declared
providers). -/
def GraphQLModule.providers {Cfg P R : Type} :
    GraphQLModule Cfg P R → List (ProviderSpec Cfg P)
  | .mk n _ _ _ none provOpt _ cfg =>
    GraphQLModule.providersFold ([] : List (GraphQLModule Cfg P R)) [] ++
      ownProviders n provOpt cfg
  | .mk n _ _ _ (some l) provOpt _ cfg =>
    GraphQLModule.providersFold l [] ++ ownProviders n provOpt cfg

/-- Embeds the import fold of the `providers` getter: each step computes
`[...module.providers, ...acc]`. -/
def GraphQLModule.providersFold {Cfg P R : Type} :
    List (GraphQLModule Cfg P R) → List (ProviderSpec Cfg P) →
    List (ProviderSpec Cfg P)
  | [], acc => acc
  | md :: rest, acc => GraphQLModule.providersFold rest (md.providers ++ acc)
end

/-- Own branch of the `typeDefs` getter: the `[]` initial value when the
option is unset; the raw result of the function form; an array merged through
`mergeGraphQLSchemas`; a string kept as-is; a document printed. -/
def ownTypeDefs {Cfg : Type} (tdOpt : Option (OptDef Cfg TypeDefsForm))
    (cfg : Cfg) : SDLFragment :=
  match tdOpt with
  | none => .emptyArr
  | some (.fn f) => .rawI (f cfg)
  | some (.lit form) =>
    match form with
    | .str s => .strI s
    | .doc d => .strI (printDocument d)
    | .strs l => .strI (mergeGraphQLSchemas (l.map SDLFragment.strI))
    | .docs l =>
      .strI (mergeGraphQLSchemas (l.map (fun d => SDLFragment.rawI (TypeDefsForm.doc d))))

mutual
/-- Embeds the `typeDefs` getter: returns
`mergeGraphQLSchemas([...this.imports.map(module => module.typeDefs), typeDefs])`
with the own fragment last. -/
def GraphQLModule.typeDefs {Cfg P R : Type} : GraphQLModule Cfg P R → String
  | .mk _ tdOpt _ _ none _ _ cfg =>
    mergeGraphQLSchemas
      (GraphQLModule.typeDefsFold ([] : List (GraphQLModule Cfg P R)) ++
        [ownTypeDefs tdOpt cfg])
  | .mk _ tdOpt _ _ (some l) _ _ cfg =>
    mergeGraphQLSchemas (GraphQLModule.typeDefsFold l ++ [ownTypeDefs tdOpt cfg])

/-- Embeds `this.imports.map(module => module.typeDefs)`. -/
def GraphQLModule.typeDefsFold {Cfg P R : Type} :
    List (GraphQLModule Cfg P R) → List SDLFragment
  | [] => []
  | md :: rest => SDLFragment.strI md.typeDefs :: GraphQLModule.typeDefsFold rest
end

/-- Own branch of the `resolvers` getter: `{}` when the option is unset, else
the literal map or the function form applied to the config. -/
def ownResolvers {Cfg R : Type} (rsOpt : Option (OptDef Cfg (ResolversMap R)))
    (cfg : Cfg) : ResolversMap R :=
  match rsOpt with
  | none => []
  | some d => d.resolve cfg

mutual
/-- Embeds the `resolvers` getter: returns
`mergeResolvers([...this.imports.map(module => module.resolvers), resolvers])`
with the own map last. Note the getter never consults
`_options.resolversComposition` and never calls `composeResolvers`. -/
def GraphQLModule.resolvers {Cfg P R : Type} : GraphQLModule Cfg P R → ResolversMap R
  | .mk _ _ rsOpt _ none _ _ cfg =>
    mergeResolvers
      (GraphQLModule.resolversFold ([] : List (GraphQLModule Cfg P R)) ++
        [ownResolvers rsOpt cfg])
  | .mk _ _ rsOpt _ (some l) _ _ cfg =>
    mergeResolvers (GraphQLModule.resolversFold l ++ [ownResolvers rsOpt cfg])

/-- Embeds `this.imports.map(module => module.resolvers)`. -/
def GraphQLModule.resolversFold {Cfg P R : Type} :
    List (GraphQLModule Cfg P R) → List (ResolversMap R)
  | [] => []
  | md :: rest => md.resolvers :: GraphQLModule.resolversFold rest
end

mutual
/-- Embeds invoking the closure returned by the `contextBuilder` getter:
`(request, builtResult, injector) => Object.assign(builtResult,
contextBuilderDefinition(request, this.imports.reduce((acc, module) =>
Object.assign(acc, module.contextBuilder(request, acc, injector),
builtResult)), injector))`. The reduce has no initial value, so on an empty
imports array it throws a TypeError (`Except.error ()`), and on
`[m0, ...rest]` the accumulator starts as the module object `m0` itself
without the callback running for `m0`. The fallback
`(() => {}) as any` is a function with an empty block body, so it returns
`undefined` and `Object.assign` then merges nothing. -/
def GraphQLModule.contextBuilderRun {Cfg P R : Type} :
    GraphQLModule Cfg P R → Nat → JsCtxObj → Unit → Except Unit JsCtxObj
  | .mk _ _ _ _ none _ _ _, _, _, _ => .error ()
  | .mk _ _ _ _ (some []) _ _ _, _, _, _ => .error ()
  | .mk _ _ _ cbOpt (some (m0 :: rest)) _ _ _, request, builtResult, injector => do
    let reduced ← GraphQLModule.ctxFold request builtResult.fields
      (JsCtxObj.moduleObj m0.nameOf []) rest
    let ownFields : CtxFields :=
      match cbOpt with
      | none => []
      | some b => b request reduced injector
    pure (builtResult.assign ownFields)

/-- Embeds the callback fold of the reduce: for each further import, the step
is `Object.assign(acc, module.contextBuilder(request, acc, injector),
builtResult)`. The middle source is the very object `acc` as mutated by the
closure of the import (that closure returns its own `builtResult` argument,
which is `acc` here), so that part is a self-assign no-op, after which the
fields of the outer `builtResult` are assigned on top. -/
def GraphQLModule.ctxFold {Cfg P R : Type} (request : Nat) (builtFields : CtxFields) :
    JsCtxObj → List (GraphQLModule Cfg P R) → Except Unit JsCtxObj
  | acc, [] => pure acc
  | acc, md :: rest => do
    let r ← md.contextBuilderRun request acc ()
    GraphQLModule.ctxFold request builtFields (r.assign builtFields) rest
end

/-- Modelled from the spec: the Injector class lives outside src (section 4.3);
the `injector` getter builds a fresh Injector and registers and eagerly
instantiates every provider of the module in list order. The injector is
modelled by its ordered provider registrations, with instantiation elided. -/
def GraphQLModule.injector {Cfg P R : Type} (m : GraphQLModule Cfg P R) :
    List (ProviderSpec Cfg P) :=
  m.providers

/-- Embeds the `context` instance method: builds the injector, seeds
`builtResult = { injector }`, invokes the composed contextBuilder with
`builtResult` as the merge target, then assigns the returned object onto
`builtResult` (a self-assign, since the closure returns the same object) and
returns it. A thrown TypeError rejects the promise (`Except.error`). -/
def GraphQLModule.context {Cfg P R : Type} (m : GraphQLModule Cfg P R)
    (request : Nat) : Except Unit CtxFields :=
  let _injector := m.injector
  let builtResult : JsCtxObj := .plainCtx [("injector", CtxVal.injectorRef)]
  match m.contextBuilderRun request builtResult () with
  | .error e => .error e
  | .ok res => .ok res.fields

/-- Options of one node of the name-indexed module-graph model: imports refer
to modules by name, which lets the model express the cyclic instance graphs
constructible on the JS heap (see the example comment of the repository about
the getters entering an infinite loop). Only the fields the recursive getters
traverse are kept; the own typeDefs fragment is kept pre-materialized. -/
structure GraphOptions where
  typeDefsStr : Option String
  resolversMap : ResolversMap Nat
  importNames : List String
deriving DecidableEq

/-- A module graph: modules indexed by name. -/
abbrev ModuleGraph := List (String × GraphOptions)

/-- The `typeDefs` getter over a module graph, with an explicit recursion
bound: `none` means the evaluation did not complete within `fuel` nested
getter activations. The source getter recurses into every import with no
cycle check, so an evaluation that never terminates is `none` for every
bound. -/
def typeDefsOnGraph (g : ModuleGraph) : Nat → String → Option String
  | 0, _ => none
  | fuel + 1, n => do
    let opts ← g.lookup n
    let importDefs ← opts.importNames.mapM (typeDefsOnGraph g fuel)
    pure (mergeGraphQLSchemas
      (importDefs.map SDLFragment.strI ++
        [match opts.typeDefsStr with
         | none => SDLFragment.emptyArr
         | some s => SDLFragment.strI s]))

/-- The `providers` getter over a module graph, with an explicit recursion
bound (same reading of `none` as `typeDefsOnGraph`). -/
def providersOnGraph (g : ModuleGraph) : Nat → String → Option (List (ProviderSpec Unit Unit))
  | 0, _ => none
  | fuel + 1, n => do
    let opts ← g.lookup n
    let imported ← opts.importNames.mapM (providersOnGraph g fuel)
    pure (imported.foldl (fun acc l => l ++ acc) [] ++
      [ProviderSpec.moduleConfigValue (ModuleConfig n) ()])

/-- The `resolvers` getter over a module graph, with an explicit recursion
bound (same reading of `none` as `typeDefsOnGraph`). -/
def resolversOnGraph (g : ModuleGraph) : Nat → String → Option (ResolversMap Nat)
  | 0, _ => none
  | fuel + 1, n => do
    let opts ← g.lookup n
    let imported ← opts.importNames.mapM (resolversOnGraph g fuel)
    pure (mergeResolvers (imported ++ [opts.resolversMap]))

/-- The `injector` getter over a module graph: it evaluates the `providers`
getter and registers the result, so it completes exactly when `providers`
does. -/
def injectorOnGraph (g : ModuleGraph) (fuel : Nat) (n : String) :
    Option (List (ProviderSpec Unit Unit)) :=
  providersOnGraph g fuel n

/-- The two-module cyclic graph of the claim: A imports B and B imports A. -/
def cyclicGraph : ModuleGraph :=
  [("A", ⟨none, [], ["B"]⟩), ("B", ⟨none, [], ["A"]⟩)]

/-- Module of the C1 scenario: own resolvers and a resolversComposition
mapping targeting `Query.foo`, no imports. -/
def c1M : GraphQLModule Unit Unit Nat :=
  .mk "M" none (some (.lit [("Query", [("foo", some 0)])])) none none none
    (some (.lit [("Query.foo", ComposeFns.one (fun _ => some 1))])) ()

/-- Import-less module of the C8 scenario, mirroring the UserModule example of
the repository (no `imports` option). -/
def c8Leaf : GraphQLModule Unit Unit Nat :=
  .mk "User" none none none none none none ()

/-- Import-less module of the C8 scenario with an explicitly empty imports
list and an own context builder. -/
def c8Leaf2 : GraphQLModule Unit Unit Nat :=
  .mk "User2" none none (some (fun _ _ _ => [("own", CtxVal.num 1)]))
    (some []) none none ()

/-- Imported module of the C2 scenario, contributing the field `fromB`. -/
def c2B : GraphQLModule Unit Unit Nat :=
  .mk "B" none none (some (fun _ _ _ => [("fromB", CtxVal.num 2)])) none none none ()

/-- Root module of the C2 scenario: own builder contributing `own`, importing
`c2B`. -/
def c2A : GraphQLModule Unit Unit Nat :=
  .mk "A" none none (some (fun _ _ _ => [("own", CtxVal.num 1)]))
    (some [c2B]) none none ()

/-- Leaf modules and root of the C3 scenario: A imports B then C. -/
def c3B : GraphQLModule Unit Unit Nat := .mk "B" none none none none none none ()

/-- Second leaf of the C3 scenario. -/
def c3C : GraphQLModule Unit Unit Nat := .mk "C" none none none none none none ()

/-- Root of the C3 scenario, importing `[c3B, c3C]` in that order. -/
def c3A : GraphQLModule Unit Unit Nat :=
  .mk "A" none none none (some [c3B, c3C]) none none ()

theorem providersFold_eq {Cfg P R : Type} (l : List (GraphQLModule Cfg P R))
    (acc : List (ProviderSpec Cfg P)) :
    GraphQLModule.providersFold l acc =
      (l.map GraphQLModule.providers).reverse.flatten ++ acc := by
  induction l generalizing acc with
  | nil => simp [GraphQLModule.providersFold]
  | cons md rest ih =>
    simp [GraphQLModule.providersFold, ih, List.flatten_append]

/-- Claim C1 (code_bug evaluation): the `resolvers` getter of a module whose
options declare a resolversComposition mapping returns the raw own map —
`Query.foo` still resolves to the original resolver — although applying
`composeResolvers` to the own map with that mapping would install the wrapped
resolver. The getter never invokes `composeResolvers`. -/
theorem c1_resolvers_getter_ignores_composition :
    c1M.resolvers = [("Query", [("foo", some 0)])] ∧
    composeResolvers [("Query", [("foo", some 0)])]
      [("Query.foo", ComposeFns.one (fun _ => some 1))]
      = .ok [("Query", [("foo", some 1)])] := by
  constructor
  · simp [c1M, GraphQLModule.resolvers, GraphQLModule.resolversFold, ownResolvers,
      OptDef.resolve, mergeResolvers, mergeResolversInto, setKey]
  · decide

/-- Claim C2 (code_bug evaluation): for a root module with an own builder and
exactly one imported module with a builder, `context` succeeds but the
aggregate holds only the injector seed and the own field; the field `fromB` of
the imported builder is absent because the no-initial-value `reduce` returns
`imports[0]` without ever running the callback, so the builder of the import
is never invoked. -/
theorem c2_import_builder_never_invoked :
    c2A.context 0 = .ok [("injector", CtxVal.injectorRef), ("own", CtxVal.num 1)] ∧
    (([("injector", CtxVal.injectorRef), ("own", CtxVal.num 1)] : CtxFields).lookup "fromB"
      = none) := by
  constructor
  · simp only [c2A, c2B, GraphQLModule.context, GraphQLModule.contextBuilderRun,
      GraphQLModule.ctxFold, GraphQLModule.injector, GraphQLModule.providers,
      GraphQLModule.providersFold, ownProviders, JsCtxObj.fields, JsCtxObj.assign,
      assignFields, setKey, GraphQLModule.nameOf]
    rfl
  · decide

/-- Claim C8 (code_bug evaluation): for a module with no imports (option unset,
as in the UserModule example of the repository, or an explicitly empty list),
`context(request)` throws a TypeError — `Array.prototype.reduce` of an empty
array with no initial value — instead of returning the seeded aggregate. -/
theorem c8_context_throws_for_importless_module :
    c8Leaf.context 0 = .error () ∧ c8Leaf2.context 0 = .error () := by
  constructor
  · simp [c8Leaf, GraphQLModule.context, GraphQLModule.contextBuilderRun,
      GraphQLModule.injector, GraphQLModule.providers, GraphQLModule.providersFold,
      ownProviders]
  · simp [c8Leaf2, GraphQLModule.context, GraphQLModule.contextBuilderRun,
      GraphQLModule.injector, GraphQLModule.providers, GraphQLModule.providersFold,
      ownProviders]

/-- Claim C3 (counterexample): for a module importing `[B, C]` in that order,
the `providers` getter lists the providers of C before those of B — the
reverse of import order — followed by the own `ModuleConfig` provider; the
list the claim predicts (B before C) is a different list. -/
theorem c3_providers_counterexample :
    c3A.providers =
      [ProviderSpec.moduleConfigValue "ModuleConfig.C" (),
       ProviderSpec.moduleConfigValue "ModuleConfig.B" (),
       ProviderSpec.moduleConfigValue "ModuleConfig.A" ()] ∧
    c3A.providers ≠
      [ProviderSpec.moduleConfigValue "ModuleConfig.B" (),
       ProviderSpec.moduleConfigValue "ModuleConfig.C" (),
       ProviderSpec.moduleConfigValue "ModuleConfig.A" ()] := by
  have h : c3A.providers =
      [ProviderSpec.moduleConfigValue "ModuleConfig.C" (),
       ProviderSpec.moduleConfigValue "ModuleConfig.B" (),
       ProviderSpec.moduleConfigValue "ModuleConfig.A" ()] := by
    simp [c3A, c3B, c3C, GraphQLModule.providers, GraphQLModule.providersFold,
      ownProviders, ModuleConfig]
  refine ⟨h, ?_⟩
  rw [h]
  decide

/-- Claim C3 (amended): the `providers` getter returns the flattened providers
of the imported modules in reverse import order (each import contributing its
full flattened list contiguously), followed by the own part — the
`ModuleConfig` provider plus the declared providers — last. -/
theorem c3_providers_reverse_import_order {Cfg P R : Type}
    (m : GraphQLModule Cfg P R) :
    m.providers =
      (m.imports.map GraphQLModule.providers).reverse.flatten ++
        ownProviders m.nameOf m.providersOptOf m.configOf := by
  cases m with
  | mk n td rs cb impsOpt pv cmp cfg =>
    cases impsOpt <;>
      simp [GraphQLModule.providers, GraphQLModule.imports, GraphQLModule.nameOf,
        GraphQLModule.providersOptOf, GraphQLModule.configOf, providersFold_eq]

theorem typeDefsOnGraph_cyclic_aux (fuel : Nat) :
    typeDefsOnGraph cyclicGraph fuel "A" = none ∧
    typeDefsOnGraph cyclicGraph fuel "B" = none := by
  induction fuel with
  | zero => simp [typeDefsOnGraph]
  | succ n ih =>
    have hA : cyclicGraph.lookup "A" = some ⟨none, [], ["B"]⟩ := rfl
    have hB : cyclicGraph.lookup "B" = some ⟨none, [], ["A"]⟩ := rfl
    refine ⟨?_, ?_⟩
    · simp [typeDefsOnGraph, hA, List.mapM, List.mapM.loop, ih.2]
    · simp [typeDefsOnGraph, hB, List.mapM, List.mapM.loop, ih.1]

theorem providersOnGraph_cyclic_aux (fuel : Nat) :
    providersOnGraph cyclicGraph fuel "A" = none ∧
    providersOnGraph cyclicGraph fuel "B" = none := by
  induction fuel with
  | zero => simp [providersOnGraph]
  | succ n ih =>
    have hA : cyclicGraph.lookup "A" = some ⟨none, [], ["B"]⟩ := rfl
    have hB : cyclicGraph.lookup "B" = some ⟨none, [], ["A"]⟩ := rfl
    refine ⟨?_, ?_⟩
    · simp [providersOnGraph, hA, List.mapM, List.mapM.loop, ih.2]
    · simp [providersOnGraph, hB, List.mapM, List.mapM.loop, ih.1]

theorem resolversOnGraph_cyclic_aux (fuel : Nat) :
    resolversOnGraph cyclicGraph fuel "A" = none ∧
    resolversOnGraph cyclicGraph fuel "B" = none := by
  induction fuel with
  | zero => simp [resolversOnGraph]
  | succ n ih =>
    have hA : cyclicGraph.lookup "A" = some ⟨none, [], ["B"]⟩ := rfl
    have hB : cyclicGraph.lookup "B" = some ⟨none, [], ["A"]⟩ := rfl
    refine ⟨?_, ?_⟩
    · simp [resolversOnGraph, hA, List.mapM, List.mapM.loop, ih.2]
    · simp [resolversOnGraph, hB, List.mapM, List.mapM.loop, ih.1]

/-- Claim C4 (code_bug evaluation): on the cyclic graph where A imports B and
B imports A, the `providers`, `typeDefs`, `resolvers` and `injector` getters
never complete within any recursion bound — the evaluation recurses
unboundedly. No `CyclicImportError` is raised: no such error exists anywhere
in the code, and an error value is never produced. -/
theorem c4_cyclic_imports_diverge (fuel : Nat) :
    typeDefsOnGraph cyclicGraph fuel "A" = none ∧
    providersOnGraph cyclicGraph fuel "A" = none ∧
    resolversOnGraph cyclicGraph fuel "A" = none ∧
    injectorOnGraph cyclicGraph fuel "A" = none :=
  ⟨(typeDefsOnGraph_cyclic_aux fuel).1, (providersOnGraph_cyclic_aux fuel).1,
    (resolversOnGraph_cyclic_aux fuel).1,
    (providersOnGraph_cyclic_aux fuel).1⟩

theorem joinSDL_append (l1 l2 : List String) :
    joinSDL (l1 ++ l2) = joinSDL l1 ++ joinSDL l2 := by
  induction l1 with
  | nil => simp [joinSDL, String.empty_append]
  | cons s rest ih => simp [joinSDL, ih, String.append_assoc]

/-- Claim C7: for modules A importing B importing C, the `typeDefs` getter of
A yields the concatenation, in order, of the own SDL texts of C, then B, then
A — imports first, transitively, own fragment last. -/
theorem c7_typeDefs_imports_first_own_last {Cfg P R : Type}
    (nA nB nC : String)
    (tdA tdB tdC : Option (OptDef Cfg TypeDefsForm))
    (rsA rsB rsC : Option (OptDef Cfg (ResolversMap R)))
    (cbA cbB cbC : Option BuildContextFn)
    (pvA pvB pvC : Option (OptDef Cfg (List P)))
    (cmA cmB cmC : Option (OptDef Cfg (IResolversComposerMapping R)))
    (cfgA cfgB cfgC : Cfg) :
    (GraphQLModule.mk nA tdA rsA cbA
        (some [GraphQLModule.mk nB tdB rsB cbB
          (some [GraphQLModule.mk nC tdC rsC cbC
            (none : Option (List (GraphQLModule Cfg P R))) pvC cmC cfgC])
          pvB cmB cfgB])
        pvA cmA cfgA).typeDefs
      = joinSDL ((ownTypeDefs tdC cfgC).texts ++ (ownTypeDefs tdB cfgB).texts ++
          (ownTypeDefs tdA cfgA).texts) := by
  simp [GraphQLModule.typeDefs, GraphQLModule.typeDefsFold, mergeGraphQLSchemas,
    SDLFragment.texts, joinSDL, joinSDL_append, String.append_assoc]

theorem chain_foldl_apply {R : Type} (f : ComposerFn R) (l : List (ComposerFn R))
    (x : Option R) :
    (l.foldl (fun a b => fun args => a (b args)) f) x
      = f (l.foldr (fun fn v => fn v) x) := by
  induction l generalizing f with
  | nil => rfl
  | cons b rest ih => simp [List.foldl, List.foldr, ih]

theorem chainFunctions_append_thunk {R : Type} (cf : List (ComposerFn R))
    (th : ComposerFn R) (x : Option R) :
    chainFunctions (cf ++ [th]) x = cf.foldr (fun fn v => fn v) (th x) := by
  cases cf with
  | nil => rfl
  | cons f rest =>
    simp [chainFunctions, chain_foldl_apply, List.foldr_append, List.foldr]

/-- Claim C5: composing `[f, g]` onto an existing `Type.field` resolver
installs exactly `f(g(originalResolver))` at that path — the last-listed `g`
directly receives the original resolver and the first-listed `f` is
outermost. -/
theorem c5_pair_composition_outermost_first {R : Type} (rs : ResolversMap R)
    (t fld : String) (f g : ComposerFn R)
    (hsplit : jsSplitDot (t ++ "." ++ fld) = [t, fld]) (hstar : fld ≠ "*") :
    composeResolvers rs [(t ++ "." ++ fld, ComposeFns.many [f, g])]
      = .ok (lodashSet rs t fld (f (g (lodashGet rs t fld)))) := by
  simp [composeResolvers, composeResolversGo, resolveRelevantMappings, hsplit,
    hstar, applyToFields, chainFunctions, asArray, List.lookup, Bind.bind,
    Except.bind]

/-- Witness for C5 at a concrete input: wrapping `Query.foo = some 10` with
`[(+1 after), (*2 first applied to the original)]` stores
`(10 * 2) + 1 = 21`. -/
theorem c5_pair_composition_outermost_first_witness :
    composeResolvers [("Query", [("foo", some 10)])]
      [("Query" ++ "." ++ "foo",
        ComposeFns.many [fun v => v.map (fun x => x + 1),
          fun v => v.map (fun x => x * 2)])]
      = .ok [("Query", [("foo", some 21)])] :=
  (c5_pair_composition_outermost_first [("Query", [("foo", some 10)])] "Query" "foo"
      (fun v => v.map (fun x => x + 1)) (fun v => v.map (fun x => x * 2))
      (by decide) (by decide)).trans (by decide)

/-- Claim C10: a mapping key that does not split into exactly two dot-separated
segments matches no resolver fields: the entry is skipped without error,
leaving the resolvers object untouched by that entry. -/
theorem c10_malformed_path_skipped {R : Type} (rs : ResolversMap R)
    (allMappings : IResolversComposerMapping R) (path : String)
    (restKeys : List String) (hlen : (jsSplitDot path).length ≠ 2) :
    composeResolversGo allMappings rs (path :: restKeys)
      = composeResolversGo allMappings rs restKeys ∧
    ∀ cf, composeResolvers rs [(path, cf)] = .ok rs := by
  have hne : ∀ mp : IResolversComposerMapping R,
      resolveRelevantMappings rs path mp = .ok [] := by
    intro mp
    unfold resolveRelevantMappings
    rcases hsp : jsSplitDot path with _ | ⟨a, rest2⟩
    · rfl
    · rcases rest2 with _ | ⟨b, rest3⟩
      · rfl
      · rcases rest3 with _ | ⟨c, rest4⟩
        · exact absurd (by simp [hsp]) hlen
        · rfl
  refine ⟨?_, ?_⟩
  · simp [composeResolversGo, hne, applyToFields, Bind.bind, Except.bind]
  · intro cf
    simp [composeResolvers, composeResolversGo, hne, applyToFields, Bind.bind,
      Except.bind]

/-- Witness for C10 at a concrete input: the single-segment key `"Query"`
wraps nothing and the call returns the resolvers object unchanged. -/
theorem c10_malformed_path_skipped_witness :
    composeResolvers [("Query", [("x", some 5)])]
      [("Query", ComposeFns.one (fun _ => none))]
      = .ok [("Query", [("x", some 5)])] :=
  (c10_malformed_path_skipped [("Query", [("x", some 5)])] [] "Query" []
      (by decide)).2 (ComposeFns.one (fun _ => none))

/-- Counterexample to claim C9 as stated: a wildcard entry for a type absent
from the resolver map is not a no-op — `Object.keys(resolvers[typeName])`
throws a TypeError, failing the whole `composeResolvers` call. -/
theorem c9_wildcard_absent_type_throws :
    composeResolvers ([] : ResolversMap Nat) [("Query.*", ComposeFns.many [])]
      = .error () := by decide

/-- Claim C9 (amended): a wildcard entry for an absent type throws a TypeError;
a two-segment non-wildcard entry whose type or field is absent raises no error
but is not a no-op either — it installs the composer chain applied to
`undefined` at that path, creating it. -/
theorem c9_missing_paths_behavior {R : Type} (rs : ResolversMap R)
    (T fld : String) (cf : List (ComposerFn R))
    (hsplitStar : jsSplitDot (T ++ ".*") = [T, "*"])
    (hsplit : jsSplitDot (T ++ "." ++ fld) = [T, fld]) (hstar : fld ≠ "*") :
    (rs.lookup T = none →
      composeResolvers rs [(T ++ ".*", ComposeFns.many cf)] = .error ()) ∧
    (lodashGet rs T fld = none →
      composeResolvers rs [(T ++ "." ++ fld, ComposeFns.many cf)]
        = .ok (lodashSet rs T fld (cf.foldr (fun fn v => fn v) none))) := by
  refine ⟨?_, ?_⟩
  · intro hT
    simp [composeResolvers, composeResolversGo, resolveRelevantMappings,
      hsplitStar, hT, List.lookup, Bind.bind, Except.bind]
  · intro hmiss
    simp [composeResolvers, composeResolversGo, resolveRelevantMappings,
      hsplit, hstar, applyToFields, chainFunctions_append_thunk, hmiss,
      List.lookup, Bind.bind, Except.bind, asArray]

/-- Witness for C9 (amended) at concrete inputs: the wildcard over the absent
type `Query` throws; the explicit entry `Query.foo` over an empty map installs
the chain applied to `undefined` (here `fun v => some 7` of `none` is
`some 7`), creating the path. -/
theorem c9_missing_paths_behavior_witness :
    composeResolvers [("Other", [("y", some 3)])]
      [("Query" ++ ".*", ComposeFns.many [])] = .error () ∧
    composeResolvers ([] : ResolversMap Nat)
      [("Query" ++ "." ++ "foo", ComposeFns.many [fun _ => some 7])]
      = .ok [("Query", [("foo", some 7)])] :=
  ⟨(c9_missing_paths_behavior [("Other", [("y", some 3)])] "Query" "foo" []
      (by decide) (by decide) (by decide)).1 (by decide),
   ((c9_missing_paths_behavior ([] : ResolversMap Nat) "Query" "foo"
        [fun _ => some 7] (by decide) (by decide) (by decide)).2
      (by decide)).trans (by decide)⟩

theorem lookup_replace_self {α : Type} (m : List (String × α)) (k : String) (v : α)
    (h : (m.lookup k).isSome) :
    (m.map (fun p => if p.1 = k then (k, v) else p)).lookup k = some v := by
  induction m with
  | nil => simp [List.lookup] at h
  | cons p rest ih =>
    obtain ⟨a, b⟩ := p
    by_cases hp : a = k
    · subst hp
      rw [List.map_cons, if_pos rfl]
      simp [List.lookup]
    · have hk : (k == a) = false := beq_eq_false_iff_ne.mpr (fun he => hp he.symm)
      simp only [List.lookup, hk] at h
      rw [List.map_cons, if_neg hp]
      simp [List.lookup, hk, ih h]

theorem lookup_replace_ne {α : Type} (m : List (String × α)) (k : String) (v : α)
    (k2 : String) (h : k2 ≠ k) :
    (m.map (fun p => if p.1 = k then (k, v) else p)).lookup k2 = m.lookup k2 := by
  induction m with
  | nil => rfl
  | cons p rest ih =>
    obtain ⟨a, b⟩ := p
    by_cases hp : a = k
    · subst hp
      rw [List.map_cons, if_pos rfl]
      have hk : (k2 == a) = false := beq_eq_false_iff_ne.mpr h
      simp [List.lookup, hk, ih]
    · rw [List.map_cons, if_neg hp]
      simp [List.lookup, ih]

theorem lookup_append_absent {α : Type} (m : List (String × α)) (k : String) (v : α)
    (h : m.lookup k = none) :
    (m ++ [(k, v)]).lookup k = some v := by
  induction m with
  | nil => simp [List.lookup]
  | cons p rest ih =>
    obtain ⟨a, b⟩ := p
    by_cases hp : k = a
    · simp [List.lookup, hp] at h
    · have hk : (k == a) = false := beq_eq_false_iff_ne.mpr hp
      simp only [List.lookup, hk] at h
      simp [List.lookup, hk, ih h]

theorem lookup_append_single_ne {α : Type} (m : List (String × α)) (k : String)
    (v : α) (k2 : String) (h : k2 ≠ k) :
    (m ++ [(k, v)]).lookup k2 = m.lookup k2 := by
  induction m with
  | nil =>
    have hk : (k2 == k) = false := beq_eq_false_iff_ne.mpr h
    simp [List.lookup, hk]
  | cons p rest ih =>
    obtain ⟨a, b⟩ := p
    by_cases hp : k2 = a
    · simp [List.lookup, hp]
    · have hk : (k2 == a) = false := beq_eq_false_iff_ne.mpr hp
      simp [List.lookup, hk, ih]

theorem lookup_setKey_self {α : Type} (m : List (String × α)) (k : String) (v : α) :
    (setKey m k v).lookup k = some v := by
  unfold setKey
  by_cases hs : (m.lookup k).isSome
  · rw [if_pos hs]
    exact lookup_replace_self m k v hs
  · rw [if_neg hs]
    exact lookup_append_absent m k v (Option.not_isSome_iff_eq_none.mp hs)

theorem lookup_setKey_ne {α : Type} (m : List (String × α)) (k : String) (v : α)
    (k2 : String) (h : k2 ≠ k) :
    (setKey m k v).lookup k2 = m.lookup k2 := by
  unfold setKey
  by_cases hs : (m.lookup k).isSome
  · rw [if_pos hs]
    exact lookup_replace_ne m k v k2 h
  · rw [if_neg hs]
    exact lookup_append_single_ne m k v k2 h

theorem lodashGet_lodashSet_self {R : Type} (rs : ResolversMap R) (t fld : String)
    (v : Option R) :
    lodashGet (lodashSet rs t fld v) t fld = v := by
  unfold lodashSet
  cases ht : rs.lookup t with
  | none =>
    simp [lodashGet, lookup_append_absent rs t _ ht, List.lookup]
  | some tm =>
    simp [lodashGet, lookup_setKey_self]

theorem lodashGet_lodashSet_ne {R : Type} (rs : ResolversMap R) (t fld fld2 : String)
    (v : Option R) (h : fld2 ≠ fld) :
    lodashGet (lodashSet rs t fld v) t fld2 = lodashGet rs t fld2 := by
  unfold lodashSet
  cases ht : rs.lookup t with
  | none =>
    have hk : (fld2 == fld) = false := beq_eq_false_iff_ne.mpr h
    simp [lodashGet, lookup_append_absent rs t _ ht, ht, List.lookup, hk]
  | some tm =>
    simp [lodashGet, lookup_setKey_self, lookup_setKey_ne _ _ _ _ h, ht]

theorem filter_map_swap {α β : Type} (f : α → β) (p : β → Bool) (l : List α) :
    (l.map f).filter p = (l.filter (fun a => p (f a))).map f := by
  induction l with
  | nil => rfl
  | cons a rest ih => by_cases h : p (f a) <;> simp [h, ih]

theorem applyToFields_get_not_mem {R : Type} (cf : List (ComposerFn R)) (T : String)
    (flds : List String) (fld : String)
    (hs : ∀ x ∈ flds, jsSplitDot (T ++ "." ++ x) = [T, x])
    (hmem : fld ∉ flds) :
    ∀ rs : ResolversMap R,
      lodashGet (applyToFields rs cf (flds.map (fun x => T ++ "." ++ x))) T fld
        = lodashGet rs T fld := by
  induction flds with
  | nil => intro rs; rfl
  | cons x rest ih =>
    intro rs
    have hx := hs x (List.mem_cons_self _ _)
    have hrest : ∀ y ∈ rest, jsSplitDot (T ++ "." ++ y) = [T, y] :=
      fun y hy => hs y (List.mem_cons_of_mem _ hy)
    have hne : fld ≠ x := fun he => hmem (he ▸ List.mem_cons_self _ _)
    have hmem2 : fld ∉ rest := fun hm => hmem (List.mem_cons_of_mem _ hm)
    simp only [List.map_cons, applyToFields, List.foldl_cons, hx]
    have := ih hrest hmem2 (lodashSet rs T x
      (chainFunctions (cf ++ [fun _ => lodashGet rs T x]) none))
    simp only [applyToFields] at this
    rw [this, lodashGet_lodashSet_ne _ _ _ _ _ hne]

theorem applyToFields_get {R : Type} (cf : List (ComposerFn R)) (T : String)
    (flds : List String)
    (hs : ∀ x ∈ flds, jsSplitDot (T ++ "." ++ x) = [T, x])
    (hnd : flds.Nodup) :
    ∀ rs : ResolversMap R, ∀ fld ∈ flds,
      lodashGet (applyToFields rs cf (flds.map (fun x => T ++ "." ++ x))) T fld
        = cf.foldr (fun fn v => fn v) (lodashGet rs T fld) := by
  induction flds with
  | nil => intro rs fld h; cases h
  | cons x rest ih =>
    intro rs fld hmem
    have hx := hs x (List.mem_cons_self _ _)
    have hrest : ∀ y ∈ rest, jsSplitDot (T ++ "." ++ y) = [T, y] :=
      fun y hy => hs y (List.mem_cons_of_mem _ hy)
    obtain ⟨hxnotin, hndrest⟩ := List.nodup_cons.mp hnd
    simp only [List.map_cons, applyToFields, List.foldl_cons, hx]
    rcases List.mem_cons.mp hmem with he | hin
    · subst he
      have hnm := applyToFields_get_not_mem cf T rest fld hrest hxnotin
        (lodashSet rs T fld
          (chainFunctions (cf ++ [fun _ => lodashGet rs T fld]) none))
      simp only [applyToFields] at hnm
      rw [hnm, lodashGet_lodashSet_self, chainFunctions_append_thunk]
    · have hne : fld ≠ x := fun he => hxnotin (he ▸ hin)
      have := ih hrest hndrest (lodashSet rs T x
        (chainFunctions (cf ++ [fun _ => lodashGet rs T x]) none)) fld hin
      simp only [applyToFields] at this
      rw [this, lodashGet_lodashSet_ne _ _ _ _ _ hne]

/-- Claim C6: a wildcard entry expands to exactly the fields currently present
on the type in the resolver map that do not have their own explicit
non-wildcard entry anywhere in the mapping (first conjunct, membership given
by the filter); the expansion is invariant under replacing the mapping by any
mapping with the same key domain, hence independent of declaration order
(second conjunct); and composing through the wildcard wraps every expanded
field independently with the composer list applied to the original resolver
of that very field (third conjunct). -/
theorem c6_wildcard_expansion {R : Type} (rs : ResolversMap R) (T : String)
    (tm : FieldResolvers R) (mapping : IResolversComposerMapping R)
    (cf : List (ComposerFn R))
    (hT : rs.lookup T = some tm)
    (hsplitStar : jsSplitDot (T ++ ".*") = [T, "*"])
    (hsplit : ∀ fld ∈ tm.map Prod.fst, jsSplitDot (T ++ "." ++ fld) = [T, fld])
    (hnd : (tm.map Prod.fst).Nodup)
    (hstar : "*" ∉ tm.map Prod.fst) :
    resolveRelevantMappings rs (T ++ ".*") mapping
      = .ok (((tm.map Prod.fst).filter
          (fun fld => (mapping.lookup (T ++ "." ++ fld)).isNone)).map
          (fun fld => T ++ "." ++ fld)) ∧
    (∀ mapping2 : IResolversComposerMapping R,
      (∀ k, (mapping.lookup k).isNone = (mapping2.lookup k).isNone) →
      resolveRelevantMappings rs (T ++ ".*") mapping
        = resolveRelevantMappings rs (T ++ ".*") mapping2) ∧
    ∃ rs2, composeResolvers rs [(T ++ ".*", ComposeFns.many cf)] = .ok rs2 ∧
      ∀ fld ∈ tm.map Prod.fst,
        lodashGet rs2 T fld = cf.foldr (fun fn v => fn v) (lodashGet rs T fld) := by
  have hexp : ∀ mp : IResolversComposerMapping R,
      resolveRelevantMappings rs (T ++ ".*") mp
        = .ok (((tm.map Prod.fst).map (fun fld => T ++ "." ++ fld)).filter
            (fun item => (mp.lookup item).isNone)) := by
    intro mp
    unfold resolveRelevantMappings
    rw [hsplitStar]
    simp [hT]
  refine ⟨?_, ?_, ?_⟩
  · rw [hexp mapping, filter_map_swap]
  · intro mapping2 hsame
    rw [hexp mapping, hexp mapping2]
    congr 1
    exact List.filter_congr (fun item _ => hsame item)
  · have hkeep : resolveRelevantMappings rs (T ++ ".*")
        [(T ++ ".*", ComposeFns.many cf)]
        = .ok ((tm.map Prod.fst).map (fun fld => T ++ "." ++ fld)) := by
      rw [hexp]
      congr 1
      apply List.filter_eq_self.mpr
      intro item hitem
      obtain ⟨fld, hfld, rfl⟩ := List.mem_map.mp hitem
      have hne : T ++ "." ++ fld ≠ T ++ ".*" := by
        intro he
        have h1 := hsplit fld hfld
        rw [he, hsplitStar] at h1
        have : fld = "*" := by
          have := List.cons.injEq .. ▸ h1
          simpa using h1.symm
        exact hstar (this ▸ hfld)
      have hk : ((T ++ "." ++ fld) == (T ++ ".*")) = false :=
        beq_eq_false_iff_ne.mpr hne
      simp [List.lookup, hk]
    refine ⟨applyToFields rs cf ((tm.map Prod.fst).map (fun fld => T ++ "." ++ fld)),
      ?_, ?_⟩
    · simp [composeResolvers, composeResolversGo, hkeep, List.lookup, Bind.bind,
        Except.bind, asArray]
    · intro fld hmem
      exact applyToFields_get cf T (tm.map Prod.fst) hsplit hnd rs fld hmem

/-- Witness for C6 at a concrete input: on `Query` with fields `a` and `b`
where `Query.b` has an explicit entry, the wildcard expands to `Query.a`
only. -/
theorem c6_wildcard_expansion_witness :
    resolveRelevantMappings [("Query", [("a", some 1), ("b", some 2)])]
      ("Query" ++ ".*")
      [("Query.b", ComposeFns.many []), ("Query.*", ComposeFns.many [])]
      = .ok ["Query.a"] :=
  ((c6_wildcard_expansion [("Query", [("a", some 1), ("b", some 2)])] "Query"
      [("a", some 1), ("b", some 2)]
      [("Query.b", ComposeFns.many []), ("Query.*", ComposeFns.many [])] []
      (by decide) (by decide) (by decide) (by decide) (by decide)).1).trans
    (by decide)
